import Mathlib

/-!
A verification development for the folder-statistics component
(`scripts/iib/folder_stats.py` and `scripts/iib/folder_stats_bg.py`).

Modelling conventions:
* Paths, prompt text and words are lists of characters; the path separator
  (`os.sep`) is the character given by `sep` below.  Inputs are taken to be
  already in `os.path.normpath` normal form, as every entry point of the
  source normalizes before doing anything else.
* The catalog database is a value of type `DB` (lists of rows for the
  `image`, `image_tag` and `tag` tables); each SQL statement of the source
  is translated to an explicit list computation on those rows.  Where SQL
  leaves the row order unspecified (ties under `ORDER BY count DESC`), the
  query is modelled as a relation between the database and the permitted
  outputs.
* A database call that may raise is modelled by an `Option String`
  "failure injection" argument (`some msg` means the call raised with
  message `msg`); `try`/`except` blocks of the source become matches on
  these values, and a function that can propagate an exception returns
  `Except String _`.
* The background scheduler's module-level globals become an explicit
  `SchedState` record threaded through the operations; the Python `set`
  becomes a duplicate-free list.
* External collaborators consumed as pure functions by the source
  (`is_media_file`, `get_video_type`, the filesystem counters and the
  regex engine evaluating the metadata field patterns) are taken as
  function parameters.
* Numbers: Python's `round(x, 2)` is modelled exactly on rationals as
  round-half-to-even of `x * 100`, divided by 100; at every concrete input
  appearing below the IEEE-double evaluation of the source agrees with the
  exact rational value.

The file is organised as definitions first, then the theorems.
-/

/-- Path separator used by the source (`os.sep`); on the reference host a
forward slash. -/
def sep : Char := '/'

/-- Shorthand turning a string literal into the character-list representation
used for all text in this development. -/
def cs (s : String) : List Char := s.data

/-! ## Background scheduler state (`folder_stats_bg.py`)

The module-level globals `_executor`, `_pending_jobs`, `_initialized` are
gathered into one state record.  In every reachable state of the source,
`_executor is not None` exactly when `_initialized` is true (both are set by
`init_background_worker` and cleared together by `shutdown_background_worker`),
so a single `initialized` flag models both. -/

structure SchedState where
  initialized : Bool
  pending : List (List Char)
deriving DecidableEq

/-- Result of `submit_folder_for_processing`: the returned boolean, the
scheduler state afterwards, and the job handed to the executor (if any) —
`_executor.submit` is fire-and-forget, so only the dispatched path matters. -/
structure SubmitResult where
  accepted : Bool
  state : SchedState
  dispatched : Option (List Char)
deriving DecidableEq

/-- Embedding of `init_background_worker`: creates the pool and sets the flag
only when not yet initialized; a second call is a no-op. -/
def initBackgroundWorker (s : SchedState) : SchedState :=
  if s.initialized then s else { s with initialized := true }

/-- Embedding of `shutdown_background_worker`: when the executor exists it is
shut down and both globals are cleared; the pending set is left untouched. -/
def shutdownBackgroundWorker (s : SchedState) : SchedState :=
  if s.initialized then { s with initialized := false } else s

/-- Embedding of `is_job_pending`: membership test on `_pending_jobs`
(the path argument is taken normalized, see the module conventions). -/
def isJobPending (s : SchedState) (path : List Char) : Bool :=
  decide (path ∈ s.pending)

/-- Embedding of `get_pending_jobs`. -/
def getPendingJobs (s : SchedState) : List (List Char) :=
  s.pending

/-- Embedding of `get_pending_job_count`. -/
def getPendingJobCount (s : SchedState) : Nat :=
  s.pending.length

/-- Embedding of the state effect of `_compute_stats_task`: whether the body
(compute, cache write) succeeds or raises (`succeeded = false`), the
`finally:` block discards the path from `_pending_jobs`. -/
def computeStatsTask (s : SchedState) (path : List Char) (succeeded : Bool) : SchedState :=
  match succeeded with
  | true => { s with pending := s.pending.filter (fun q => q ≠ path) }
  | false => { s with pending := s.pending.filter (fun q => q ≠ path) }

/-- Embedding of `submit_folder_for_processing`.  `cacheExpired` models
`FolderStats.is_cache_expired` for the current catalog contents.  The source
guards the initialization (`if not _initialized: init_background_worker()`);
since `init_background_worker` is itself a no-op when already initialized,
the guarded call equals the unconditional one. -/
def submitFolderForProcessing (cacheExpired : List Char → Bool)
    (s : SchedState) (path : List Char) (force : Bool) : SubmitResult :=
  let s1 := initBackgroundWorker s
  if isJobPending s1 path then
    ⟨false, s1, none⟩
  else if ¬ force ∧ ¬ cacheExpired path then
    ⟨false, s1, none⟩
  else if path ∈ s1.pending then
    ⟨false, s1, none⟩
  else
    ⟨true, { s1 with pending := path :: s1.pending }, some path⟩

/-! ## Text analyzer (`folder_stats.py`, lines 38-62 and 381-399)

Python string membership (`pat in s`) and `s.split(pat)[0]` are modelled by
`containsSub` and `takeBeforeFirst` on character lists; `str.lower()` by a
character map (ASCII, which covers every character the source's token regex
can accept); `re.findall` of the pattern used by `extract_words_from_text`
(a word boundary, one character of `[a-z0-9]`, then greedy `[\w-]*`, then a
word boundary) by the explicit left-to-right scanner `scanTokens`. -/

/-- Boolean test that the first list is a prefix of the second. -/
def startsWith : List Char → List Char → Bool
  | [], _ => true
  | _ :: _, [] => false
  | p :: ps, c :: rest => p = c && startsWith ps rest

/-- Embedding of Python substring membership `pat in s` (an empty `pat` is a
member of every string, as in Python). -/
def containsSub (pat : List Char) : List Char → Bool
  | [] => pat.isEmpty
  | c :: rest => startsWith pat (c :: rest) || containsSub pat rest

/-- Embedding of `s.split(pat)[0]`: the prefix of `s` before the first
occurrence of `pat`, or all of `s` when `pat` does not occur. -/
def takeBeforeFirst (pat : List Char) : List Char → List Char
  | [] => []
  | c :: rest => if startsWith pat (c :: rest) then [] else c :: takeBeforeFirst pat rest

/-- Marker for the negative-prompt section, as searched for by the source:
the literal `"\nNegative prompt:"` (note the leading newline). -/
def negMarker : List Char := cs "\nNegative prompt:"

/-- Marker for the generation-parameter section: the literal `"\nSteps:"`. -/
def stepsMarker : List Char := cs "\nSteps:"

/-- Embedding of the positive-prompt extraction inlined in
`analyze_prompt_words` (lines 388-395): truncate at the first occurrence of
`"\nNegative prompt:"`, else at the first occurrence of `"\nSteps:"`, else
return the blob unchanged. -/
def extractPositivePrompt (exifData : List Char) : List Char :=
  if containsSub negMarker exifData then takeBeforeFirst negMarker exifData
  else if containsSub stepsMarker exifData then takeBeforeFirst stepsMarker exifData
  else exifData

/-- Lower-casing of one character as `str.lower()` acts on the ASCII range. -/
def lowerAscii (c : Char) : Char :=
  if 'A' ≤ c ∧ c ≤ 'Z' then Char.ofNat (c.toNat + 32) else c

/-- Character class `[a-z0-9]` of the source's token pattern. -/
def isLowerAlnum (c : Char) : Bool :=
  ('a' ≤ c && c ≤ 'z') || ('0' ≤ c && c ≤ '9')

/-- Python's word-character class for the ASCII range: letters, digits and
the underscore. -/
def isWordChar (c : Char) : Bool :=
  isLowerAlnum c || ('A' ≤ c && c ≤ 'Z') || c = '_'

/-- Character class `[\w-]` of the source's token pattern. -/
def isTokChar (c : Char) : Bool :=
  isWordChar c || c = '-'

/-- Greedy `[\w-]*` followed by a word boundary backtracks exactly over the
trailing hyphens of the maximal run, because a hyphen-to-non-token position is
never a word boundary while a word-character-to-non-token position always is. -/
def dropTrailingHyphens (l : List Char) : List Char :=
  (l.reverse.dropWhile (fun c => c = '-')).reverse

/-- Embedding of `re.findall` for the token pattern of
`extract_words_from_text`, as a one-character-at-a-time automaton.  `prevW`
records whether the previous character was a word character (initially false:
a word character at position 0 sits at a word boundary); `buf` is the run of
the match currently being consumed, if any.  A match starts at a `[a-z0-9]`
character whose predecessor is not a word character (the leading word
boundary), consumes the maximal `[\w-]*` run, and is emitted with its
trailing hyphens backtracked away for the closing word boundary. -/
def scanAux (prevW : Bool) (buf : Option (List Char)) : List Char → List (List Char)
  | [] =>
    match buf with
    | some b => [dropTrailingHyphens b]
    | none => []
  | c :: rest =>
    match buf with
    | some b =>
      if isTokChar c then scanAux prevW (some (b ++ [c])) rest
      else dropTrailingHyphens b :: scanAux (isWordChar c) none rest
    | none =>
      if ¬ prevW ∧ isLowerAlnum c then scanAux prevW (some [c]) rest
      else scanAux (isWordChar c) none rest

/-- The token stream of `re.findall(r'...', text)` for the source's pattern. -/
def scanTokens (s : List Char) : List (List Char) :=
  scanAux false none s

/-- Embedding of `extract_words_from_text`: empty (or, in Python, null) input
yields `[]`; otherwise the text is lower-cased, tokenized by the regex scan,
and tokens shorter than `minLength` or present in `stopwords` are dropped,
preserving order. -/
def extractWordsFromText (text : List Char) (stopwords : List (List Char))
    (minLength : Nat) : List (List Char) :=
  if text = [] then []
  else
    (scanTokens (text.map lowerAscii)).filter
      (fun w => minLength ≤ w.length && ¬ w ∈ stopwords)

/-! ## Stopword persistence (`folder_stats.py`, lines 10-35)

`GlobalSetting.get_setting` / `GlobalSetting.save_setting` live in
`scripts/iib/db/datamodel.py`, which is not part of the sources under
verification. -/

/-- Modelled from the spec: the external key/value settings store
("Read/write a named setting (used for the stopword list), stored as a
serialized string value").  `save_stopwords` serializes with `json.dumps` and
`get_stopwords` receives the deserialized value (its `isinstance(setting,
list)` test shows the reader deserializes), so the store is modelled as
holding the deserialized value: either a string or a list of strings. -/
inductive SettingValue where
  | strVal (s : List Char)
  | listVal (ws : List (List Char))
deriving DecidableEq

/-- Modelled from the spec: the named-settings store as an association list;
the most recent entry for a key wins (insert-or-replace semantics). -/
def KVStore : Type := List (String × SettingValue)

/-- Modelled from the spec: read a named setting, `none` when absent. -/
def getSetting (store : KVStore) (key : String) : Option SettingValue :=
  (store.find? (fun e => e.1 = key)).map (fun e => e.2)

/-- Modelled from the spec: write a named setting (insert-or-replace). -/
def saveSetting (store : KVStore) (key : String) (v : SettingValue) : KVStore :=
  (key, v) :: store

/-- The setting key used by the source. -/
def STOPWORDS_SETTING_KEY : String := "folder_stats_stopwords"

/-- The built-in default stopword list of the source (verbatim, including the
repeated "more"). -/
def DEFAULT_STOPWORDS : List (List Char) :=
  [cs "a", cs "an", cs "and", cs "are", cs "as", cs "at", cs "be", cs "by",
   cs "for", cs "from", cs "has", cs "he", cs "in", cs "is", cs "it", cs "its",
   cs "of", cs "on", cs "that", cs "the", cs "to", cs "was", cs "will", cs "with",
   cs "i", cs "you", cs "we", cs "they", cs "this", cs "but", cs "or", cs "not",
   cs "if", cs "can", cs "my", cs "your", cs "all", cs "one", cs "two", cs "more",
   cs "been", cs "have", cs "had", cs "do", cs "does", cs "done", cs "so",
   cs "up", cs "out", cs "about", cs "into", cs "through", cs "during",
   cs "before", cs "after", cs "above", cs "below", cs "between", cs "under",
   cs "again", cs "further", cs "then", cs "once", cs "there", cs "when",
   cs "where", cs "why", cs "how", cs "both", cs "each", cs "few", cs "more",
   cs "most", cs "other", cs "some", cs "such", cs "no", cs "nor", cs "only",
   cs "own", cs "same", cs "than", cs "too", cs "very", cs "just"]

/-- Embedding of `get_stopwords`: the set of lower-cased words of the stored
list when the setting is present, is a list, and is truthy (non-empty);
otherwise the default list.  The returned Python `set` is modelled by the
list, read up to membership. -/
def getStopwords (store : KVStore) : List (List Char) :=
  match getSetting store STOPWORDS_SETTING_KEY with
  | some (SettingValue.listVal ws) =>
      if ws ≠ [] then ws.map (fun w => w.map lowerAscii) else DEFAULT_STOPWORDS
  | some (SettingValue.strVal _) => DEFAULT_STOPWORDS
  | none => DEFAULT_STOPWORDS

/-- Embedding of `save_stopwords`: stores the list under the setting key
(`json.dumps` then the reader's deserialization round-trips a list of
strings). -/
def saveStopwords (store : KVStore) (stopwords : List (List Char)) : KVStore :=
  saveSetting store STOPWORDS_SETTING_KEY (SettingValue.listVal stopwords)

/-! ## Catalog database model -/

/-- A row of the `image` table.  The `date` column only ever feeds
`ORDER BY date DESC`, so it is modelled by an integer sort key. -/
structure ImageRow where
  id : Int
  path : List Char
  date : Int
  exif : Option (List Char)
deriving DecidableEq

/-- A row of the `tag` table. -/
structure TagRow where
  id : Int
  name : String
  ttype : String
deriving DecidableEq

/-- A row of the `image_tag` link table. -/
structure ImageTagRow where
  imageId : Int
  tagId : Int
deriving DecidableEq

/-- The catalog database. -/
structure DB where
  images : List ImageRow
  imageTags : List ImageTagRow
  tags : List TagRow
deriving DecidableEq

/-- SQL `path LIKE folder || sep || '%'`: SQLite's `LIKE` is
case-insensitive on ASCII, so this is a case-folded prefix test. -/
def likeMatchesPath (folderPath path : List Char) : Bool :=
  startsWith ((folderPath ++ [sep]).map lowerAscii) (path.map lowerAscii)

/-- SQL `ORDER BY date DESC`, modelled by a stable sort.  The order among
rows with equal `date` is unspecified by SQL; this deterministic choice is
one permitted refinement, and no theorem below depends on it. -/
def dateSorted (rows : List ImageRow) : List ImageRow :=
  List.insertionSort (fun a b => b.date ≤ a.date) rows

/-- The image query shared by `get_media_stats` and `get_top_tags`
(`SELECT id, path FROM image WHERE path LIKE ?`, with
`ORDER BY date DESC LIMIT ?` added only when the Python-truthy limit is
given, i.e. when it is neither `None` nor `0`). -/
def imageQuery (db : DB) (folderPath : List Char) (maxImages : Option Nat) : List ImageRow :=
  let base := db.images.filter (fun r => likeMatchesPath folderPath r.path)
  match maxImages with
  | some n => if n ≠ 0 then (dateSorted base).take n else base
  | none => base

/-- The image query of `analyze_prompt_words` and `get_metadata_summary`,
which additionally requires `exif IS NOT NULL AND exif != ''`. -/
def exifQuery (db : DB) (folderPath : List Char) (maxImages : Option Nat) : List ImageRow :=
  let base := db.images.filter (fun r =>
    likeMatchesPath folderPath r.path &&
      (match r.exif with | some e => ¬ e = [] | none => false))
  match maxImages with
  | some n => if n ≠ 0 then (dateSorted base).take n else base
  | none => base

/-- The non-recursive direct-child test of the source:
`rel_path = os.path.relpath(img_path, folder_path)` contains no separator and
is not `'.'`.  For rows delivered by the prefix query the relative path is the
suffix of the path after the folder prefix and its separator. -/
def isDirectChild (folderPath path : List Char) : Bool :=
  decide (sep ∉ path.drop (folderPath.length + 1)) &&
    decide (path.drop (folderPath.length + 1) ≠ ['.'])

/-- The row-selection block shared verbatim by `get_media_stats`,
`get_top_tags` (image query variant): fetch, then filter to direct children
when non-recursive. -/
def folderImageRows (db : DB) (folderPath : List Char) (recursive : Bool)
    (maxImages : Option Nat) : List ImageRow :=
  let rows := imageQuery db folderPath maxImages
  if recursive then rows else rows.filter (fun r => isDirectChild folderPath r.path)

/-- The row-selection block shared by `analyze_prompt_words` and
`get_metadata_summary` (exif query variant). -/
def folderExifRows (db : DB) (folderPath : List Char) (recursive : Bool)
    (maxImages : Option Nat) : List ImageRow :=
  let rows := exifQuery db folderPath maxImages
  if recursive then rows else rows.filter (fun r => isDirectChild folderPath r.path)

/-- Whether an image carries at least one custom tag (the inner condition of
`COUNT(DISTINCT it.image_id) ... JOIN tag ... AND t.type = 'custom'`). -/
def hasCustomTag (db : DB) (imageId : Int) : Bool :=
  db.imageTags.any (fun l =>
    l.imageId = imageId && db.tags.any (fun t => t.id = l.tagId && t.ttype = "custom"))

/-! ## Rounding (`round(x, 2)` of the source) -/

/-- Round-half-to-even to an integer, as Python's `round` ties-to-even. -/
def roundHalfEven (q : ℚ) : ℤ :=
  if q - ⌊q⌋ < 1/2 then ⌊q⌋
  else if 1/2 < q - ⌊q⌋ then ⌊q⌋ + 1
  else if ⌊q⌋ % 2 = 0 then ⌊q⌋ else ⌊q⌋ + 1

/-- Python's `round(x, 2)` on rationals. -/
def roundToHundredths (q : ℚ) : ℚ :=
  (roundHalfEven (q * 100) : ℚ) / 100

/-- The percentage formula of the source:
`round((count / total * 100), 2) if total > 0 else 0`. -/
def pct (count total : Nat) : ℚ :=
  if 0 < total then roundToHundredths ((count : ℚ) / (total : ℚ) * 100) else 0

/-! ## `get_media_stats` -/

/-- The dictionary returned by `get_media_stats`; `error = none` models the
absence of the `"error"` key. -/
structure MediaStats where
  total_images : Nat
  total_videos : Nat
  indexed_media : Nat
  tagged_images : Nat
  untagged_images : Nat
  analyzed_count : Nat
  limit_applied : Bool
  error : Option String
deriving DecidableEq

/-- Embedding of `get_media_stats`.  `imgFail` and `taggedFail` inject an
exception raised by the image query and by the tagged-count query; the single
`try` of the source catches either and returns the zeroed dictionary with an
`error` string.  `isVideo` models the external `get_video_type` predicate
(truthiness of its return value). -/
def getMediaStats (db : DB) (imgFail taggedFail : Option String)
    (isVideo : List Char → Bool) (folderPath : List Char) (recursive : Bool)
    (limit : Option Nat) : MediaStats :=
  match imgFail with
  | some e => ⟨0, 0, 0, 0, 0, 0, limit.isSome, some e⟩
  | none =>
    let rows := folderImageRows db folderPath recursive limit
    let imageIds := rows.map (fun r => r.id)
    if imageIds.length = 0 then
      ⟨0, 0, 0, 0, 0, 0, limit.isSome, none⟩
    else
      match taggedFail with
      | some e => ⟨0, 0, 0, 0, 0, 0, limit.isSome, some e⟩
      | none =>
        let totalImages := imageIds.length
        let totalVideos := (rows.filter (fun r => isVideo r.path)).length
        let taggedCount := (imageIds.dedup.filter (fun i => hasCustomTag db i)).length
        ⟨totalImages - totalVideos, totalVideos, totalImages, taggedCount,
          totalImages - taggedCount, totalImages, limit.isSome, none⟩

/-! ## `get_top_tags` -/

/-- One group row of the tag-count query
(`SELECT tag.id, tag.name, tag.type, COUNT(*) ... GROUP BY tag.id`). -/
structure TagCount where
  tagId : Int
  tagName : String
  tagType : String
  count : Nat
deriving DecidableEq

/-- One entry of the returned tag histogram. -/
structure TagEntry where
  tagId : Int
  tagName : String
  tagType : String
  count : Nat
  percentage : ℚ
deriving DecidableEq

/-- The groups of the tag-count query: one row per custom tag having at least
one link to an analyzed image, counting those links.  (Tag ids are a primary
key; under that hypothesis this enumeration is the `GROUP BY tag.id`
grouping.) -/
def tagGroups (db : DB) (imageIds : List Int) : List TagCount :=
  db.tags.filterMap (fun t =>
    if t.ttype = "custom" then
      let c := db.imageTags.countP
        (fun l => decide (l.imageId ∈ imageIds) && decide (l.tagId = t.id))
      if c ≠ 0 then some ⟨t.id, t.name, t.ttype, c⟩ else none
    else none)

/-- The permitted results of the tag-count query with its
`ORDER BY count DESC LIMIT k` clause: any count-descending arrangement of the
groups, truncated to `k`.  SQL specifies no order among rows of equal count,
hence the relation. -/
def tagQueryResult (db : DB) (imageIds : List Int) (k : Nat)
    (out : List TagCount) : Prop :=
  ∃ full, (tagGroups db imageIds).Perm full ∧
    full.Pairwise (fun a b => b.count ≤ a.count) ∧ out = full.take k

/-- The list comprehension closing `get_top_tags`: `total_tags` is the sum of
the counts of the returned rows, and each percentage is
`round(count / total_tags * 100, 2)` (or `0` for a zero total). -/
def topTagsOfRows (rows : List TagCount) : List TagEntry :=
  let totalTags := (rows.map (fun r => r.count)).sum
  rows.map (fun r => ⟨r.tagId, r.tagName, r.tagType, r.count, pct r.count totalTags⟩)

/-- Embedding of `get_top_tags` as a relation on its permitted return values.
`imgFail`/`tagFail` inject exceptions of the two queries; the single `try`
catches either and returns the bare empty list (no error annotation is
possible on a list). -/
def getTopTagsResult (db : DB) (imgFail tagFail : Option String)
    (folderPath : List Char) (recursive : Bool) (k : Nat) (maxImages : Option Nat)
    (out : List TagEntry) : Prop :=
  match imgFail with
  | some _ => out = []
  | none =>
    let imageIds := (folderImageRows db folderPath recursive maxImages).map (fun r => r.id)
    if imageIds = [] then out = []
    else
      match tagFail with
      | some _ => out = []
      | none => ∃ gs, tagQueryResult db imageIds k gs ∧ out = topTagsOfRows gs

/-! ## `analyze_prompt_words` -/

/-- One entry of `prompt_analysis.top_words`. -/
structure WordEntry where
  word : List Char
  count : Nat
  percentage : ℚ
deriving DecidableEq

/-- The dictionary returned by `analyze_prompt_words`;
`total_words_found = none` models the absence of that key (the early-return
and error dictionaries omit it). -/
structure PromptAnalysis where
  total_prompts_analyzed : Nat
  total_words_found : Option Nat
  top_words : List WordEntry
  error : Option String
deriving DecidableEq

/-- The distinct elements of a list in order of first occurrence — the key
order of a Python `Counter` built by insertion. -/
def distinctFirst {α : Type} [DecidableEq α] : List α → List α
  | [] => []
  | a :: l => a :: distinctFirst (l.filter (fun b => b ≠ a))
termination_by l => l.length
decreasing_by
  simp_wf
  have h1 := List.length_filter_le (fun b => !decide (b = a)) l
  omega

/-- A Python `Counter` of a list: distinct elements in first-occurrence order
with their multiplicities. -/
def counterItems {α : Type} [DecidableEq α] (l : List α) : List (α × Nat) :=
  (distinctFirst l).map (fun a => (a, l.count a))

/-- `Counter.most_common(k)`: the items sorted by count descending — a stable
sort, so ties stay in first-occurrence order — truncated to `k`. -/
def mostCommon {α : Type} [DecidableEq α] (k : Nat) (l : List α) : List (α × Nat) :=
  (List.insertionSort (fun a b => b.2 ≤ a.2) (counterItems l)).take k

/-- The word-collection loop of `analyze_prompt_words`: for each row whose
exif text is truthy, extract the positive prompt and its filtered words
(`min_length` keeps its default 2), concatenated in row order. -/
def allPromptWords (stopwords : List (List Char)) (rows : List ImageRow) : List (List Char) :=
  (rows.map (fun r =>
    match r.exif with
    | some e => if e ≠ [] then extractWordsFromText (extractPositivePrompt e) stopwords 2 else []
    | none => [])).flatten

/-- The body of `analyze_prompt_words` past the stopword read: query, filter,
count, percentage.  `qFail` injects an exception of the row query; the `try`
catches it and returns the zeroed dictionary with an `error` string. -/
def analyzePromptWordsBody (stopwords : List (List Char)) (qFail : Option String)
    (db : DB) (folderPath : List Char) (recursive : Bool) (k : Nat)
    (maxImages : Option Nat) : PromptAnalysis :=
  match qFail with
  | some e => ⟨0, none, [], some e⟩
  | none =>
    let rows := folderExifRows db folderPath recursive maxImages
    if rows = [] then ⟨0, none, [], none⟩
    else
      let ws := allPromptWords stopwords rows
      let items := counterItems ws
      let totalWords := (items.map (fun p => p.2)).sum
      ⟨rows.length, some items.length,
        (mostCommon k ws).map (fun p => ⟨p.1, p.2, pct p.2 totalWords⟩), none⟩

/-- Embedding of `analyze_prompt_words`: the stopword read
(`get_stopwords(conn)`, line 343) happens before the `try` block, so an
exception there propagates out of the function. -/
def analyzePromptWords (stopRead : Except String (List (List Char)))
    (qFail : Option String) (db : DB) (folderPath : List Char) (recursive : Bool)
    (k : Nat) (maxImages : Option Nat) : Except String PromptAnalysis :=
  match stopRead with
  | Except.error e => Except.error e
  | Except.ok stopwords =>
      Except.ok (analyzePromptWordsBody stopwords qFail db folderPath recursive k maxImages)

/-! ## `get_metadata_summary` -/

/-- The dictionary returned by `get_metadata_summary` (the `dict(...)` of a
`most_common(10)` is an insertion-ordered mapping, modelled as the pair
list). -/
structure MetadataSummary where
  models : List (List Char × Nat)
  sizes : List (List Char × Nat)
  error : Option String
deriving DecidableEq

/-- Embedding of `get_metadata_summary`.  The per-row field extraction — the
ordered `model_patterns` / `size_patterns` regex lists evaluated by Python's
`re` engine — is abstracted as the collaborator functions `modelOf` and
`sizeOf` from the metadata blob to the optionally extracted field; the
claims under verification only concern this function's control flow and
error handling. -/
def getMetadataSummary (db : DB) (qFail : Option String)
    (modelOf sizeOf : List Char → Option (List Char)) (folderPath : List Char)
    (recursive : Bool) (maxImages : Option Nat) : MetadataSummary :=
  match qFail with
  | some e => ⟨[], [], some e⟩
  | none =>
    let rows := folderExifRows db folderPath recursive maxImages
    let blobs := rows.filterMap (fun r =>
      match r.exif with
      | some e => if e ≠ [] then some e else none
      | none => none)
    ⟨mostCommon 10 (blobs.filterMap modelOf), mostCommon 10 (blobs.filterMap sizeOf), none⟩

/-! ## `compute_folder_stats` -/

/-- The result of the external filesystem counter
`get_file_and_folder_counts` (which catches all of its own errors and always
returns a dictionary of numbers). -/
structure FsCounts where
  file_count : Nat
  subfolder_count : Nat
  total_size_bytes : Nat
  media_file_count : Nat
deriving DecidableEq

/-- The record returned by `compute_folder_stats`.
`metadata_summary = none` models the bare `{}` used when
`include_metadata` is false. -/
structure FolderStatsRecord where
  folder_path : List Char
  recursive : Bool
  file_count : Nat
  subfolder_count : Nat
  total_size_bytes : Nat
  media_file_count : Nat
  media_stats : MediaStats
  top_tags : List TagEntry
  prompt_analysis : PromptAnalysis
  metadata_summary : Option MetadataSummary
  analysis_limit : Option Nat
deriving DecidableEq

/-- Failure injections for the database interactions of one
`compute_folder_stats` call, one per query the source issues. -/
structure DbFailures where
  mediaImgQ : Option String
  mediaTagQ : Option String
  tagsImgQ : Option String
  tagsTagQ : Option String
  stopwordRead : Option String
  promptQ : Option String
  metadataQ : Option String
deriving DecidableEq

/-- Failure injections that make every database call succeed. -/
def noFailures : DbFailures := ⟨none, none, none, none, none, none, none⟩

/-- Embedding of `compute_folder_stats` as a relation on its permitted
outcomes (`Except.error` models a raised exception).  `validFolder` is the
result of the `os.path.exists`/`os.path.isdir` validation; `counts` the
result of the external filesystem counter; `store` the settings store read by
`get_stopwords` inside `analyze_prompt_words` — a read that sits outside any
`try` block, so its injected failure propagates. -/
def computeFolderStatsResult (validFolder : Bool) (counts : FsCounts) (db : DB)
    (store : KVStore) (isVideo : List Char → Bool)
    (modelOf sizeOf : List Char → Option (List Char)) (fails : DbFailures)
    (folderPath : List Char) (recursive includeMetadata : Bool)
    (analysisLimit : Option Nat) (res : Except String FolderStatsRecord) : Prop :=
  if validFolder = false then
    res = Except.error ("Invalid folder path: " ++ String.mk folderPath)
  else
    match fails.stopwordRead with
    | some e => res = Except.error e
    | none =>
      ∃ tt, getTopTagsResult db fails.tagsImgQ fails.tagsTagQ folderPath recursive 10
          analysisLimit tt ∧
        res = Except.ok
          { folder_path := folderPath
            recursive := recursive
            file_count := counts.file_count
            subfolder_count := counts.subfolder_count
            total_size_bytes := counts.total_size_bytes
            media_file_count := counts.media_file_count
            media_stats := getMediaStats db fails.mediaImgQ fails.mediaTagQ isVideo
              folderPath recursive analysisLimit
            top_tags := tt
            prompt_analysis := analyzePromptWordsBody (getStopwords store) fails.promptQ
              db folderPath recursive 20 analysisLimit
            metadata_summary := if includeMetadata then
                some (getMetadataSummary db fails.metadataQ modelOf sizeOf folderPath
                  recursive analysisLimit)
              else none
            analysis_limit := analysisLimit }

/-- The number of custom-tag applications on the analyzed media: link rows
whose image is among the analyzed ids and whose tag is a custom tag. -/
def totalTagApplications (db : DB) (imageIds : List Int) : Nat :=
  db.imageTags.countP (fun l =>
    decide (l.imageId ∈ imageIds) &&
      db.tags.any (fun t => t.id = l.tagId && t.ttype = "custom"))

/-!
# Theorems
-/

/-! ## Scheduler (claims C1 and C9) -/

theorem initBackgroundWorker_pending (s : SchedState) :
    (initBackgroundWorker s).pending = s.pending := by
  unfold initBackgroundWorker; split <;> rfl

/-- Claim C1: the scheduler keeps at most one pending job per path — a submit
on an already-pending path returns `false` and leaves the pending set and its
count unchanged; a path is added to the set exactly when a submission is
accepted (and a rejected submission leaves the set unchanged); and when the
dispatched job finishes, successfully or by raising, the path is removed from
the pending set unconditionally. -/
theorem scheduler_at_most_one_pending (cacheExpired : List Char → Bool)
    (s : SchedState) (path : List Char) (force : Bool) :
    (path ∈ s.pending →
      (submitFolderForProcessing cacheExpired s path force).accepted = false ∧
      (submitFolderForProcessing cacheExpired s path force).state.pending = s.pending ∧
      getPendingJobCount (submitFolderForProcessing cacheExpired s path force).state =
        getPendingJobCount s) ∧
    ((submitFolderForProcessing cacheExpired s path force).accepted = true →
      path ∉ s.pending ∧
      (submitFolderForProcessing cacheExpired s path force).state.pending = path :: s.pending) ∧
    ((submitFolderForProcessing cacheExpired s path force).accepted = false →
      (submitFolderForProcessing cacheExpired s path force).state.pending = s.pending) ∧
    (∀ succeeded : Bool, path ∉ (computeStatsTask s path succeeded).pending) := by
  have hpend := initBackgroundWorker_pending s
  refine ⟨?_, ?_, ?_, ?_⟩
  · intro hmem
    have hjp : isJobPending (initBackgroundWorker s) path = true := by
      simp [isJobPending, hpend, hmem]
    simp [submitFolderForProcessing, hjp, getPendingJobCount, hpend]
  · intro hacc
    by_cases hmem : path ∈ s.pending
    · have hjp : isJobPending (initBackgroundWorker s) path = true := by
        simp [isJobPending, hpend, hmem]
      simp [submitFolderForProcessing, hjp] at hacc
    · refine ⟨hmem, ?_⟩
      have hjp : isJobPending (initBackgroundWorker s) path = false := by
        simp [isJobPending, hpend, hmem]
      by_cases hf : force = false ∧ cacheExpired path = false
      · simp [submitFolderForProcessing, hjp, hf] at hacc
      · simp [submitFolderForProcessing, hjp, hf, hpend, hmem]
  · intro hrej
    by_cases hmem : path ∈ s.pending
    · have hjp : isJobPending (initBackgroundWorker s) path = true := by
        simp [isJobPending, hpend, hmem]
      simp [submitFolderForProcessing, hjp, hpend]
    · have hjp : isJobPending (initBackgroundWorker s) path = false := by
        simp [isJobPending, hpend, hmem]
      by_cases hf : force = false ∧ cacheExpired path = false
      · simp [submitFolderForProcessing, hjp, hf, hpend]
      · exfalso
        simp [submitFolderForProcessing, hjp, hf, hpend, hmem] at hrej
  · intro ok
    cases ok <;> simp [computeStatsTask, List.mem_filter]

/-- Witness for claim C1's theorem at a concrete scheduler state: with the
path already pending the submit is rejected and the set is unchanged, and the
finishing job removes the path. -/
theorem scheduler_at_most_one_pending_witness :
    (submitFolderForProcessing (fun _ => true) ⟨true, [cs "a"]⟩ (cs "a") false).accepted = false ∧
    (submitFolderForProcessing (fun _ => true) ⟨true, [cs "a"]⟩ (cs "a") false).state.pending = [cs "a"] ∧
    cs "a" ∉ (computeStatsTask ⟨true, [cs "a"]⟩ (cs "a") false).pending := by
  have h := scheduler_at_most_one_pending (fun _ => true) ⟨true, [cs "a"]⟩ (cs "a") false
  have hmem : cs "a" ∈ [cs "a"] := by decide
  exact ⟨(h.1 hmem).1, (h.1 hmem).2.1, h.2.2.2 false⟩

/-- Claim C9 counterexample: after `shutdown_background_worker`, a subsequent
`submit_folder_for_processing` re-initializes the worker lazily and accepts
the job — it returns `true` and dispatches the path, contradicting the claim
that every post-shutdown submit returns `false` and dispatches nothing. -/
theorem submit_after_shutdown_accepts :
    (submitFolderForProcessing (fun _ => true)
        (shutdownBackgroundWorker (initBackgroundWorker ⟨false, []⟩)) (cs "p") false).accepted = true ∧
    (submitFolderForProcessing (fun _ => true)
        (shutdownBackgroundWorker (initBackgroundWorker ⟨false, []⟩)) (cs "p") false).dispatched =
      some (cs "p") := by
  constructor <;> rfl

/-- Claim C9 (amended): `shutdown_background_worker` clears the initialized
flag (and drops the pool) but does not permanently stop job acceptance — the
next `submit_folder_for_processing` lazily re-initializes the worker and then
accepts under the normal rules, so a post-shutdown submit on a path that is
not pending is accepted whenever it is forced or the cache is expired. -/
theorem submit_after_shutdown_behaves_as_reinitialized (cacheExpired : List Char → Bool)
    (s : SchedState) (path : List Char) (force : Bool)
    (hnp : path ∉ s.pending) (hgo : force = true ∨ cacheExpired path = true) :
    (shutdownBackgroundWorker s).initialized = false ∧
    (submitFolderForProcessing cacheExpired (shutdownBackgroundWorker s) path force).accepted = true ∧
    (submitFolderForProcessing cacheExpired (shutdownBackgroundWorker s) path force).state.initialized
      = true := by
  have hsd1 : (shutdownBackgroundWorker s).initialized = false := by
    unfold shutdownBackgroundWorker
    split <;> simp_all
  have hsd2 : (shutdownBackgroundWorker s).pending = s.pending := by
    unfold shutdownBackgroundWorker
    split <;> rfl
  refine ⟨hsd1, ?_⟩
  have hinit : (initBackgroundWorker (shutdownBackgroundWorker s)).initialized = true := by
    unfold initBackgroundWorker
    simp [hsd1]
  have hpend : (initBackgroundWorker (shutdownBackgroundWorker s)).pending = s.pending := by
    rw [initBackgroundWorker_pending, hsd2]
  have hjp : isJobPending (initBackgroundWorker (shutdownBackgroundWorker s)) path = false := by
    simp [isJobPending, hpend, hnp]
  have hgo2 : ¬ (force = false ∧ cacheExpired path = false) := by
    rcases hgo with h | h <;> simp [h]
  simp [submitFolderForProcessing, hjp, hgo2, hpend, hnp, hinit]

/-- Witness for claim C9's amended theorem at a concrete input: submitting a
fresh path right after shutdown is accepted and leaves the scheduler
re-initialized. -/
theorem submit_after_shutdown_behaves_witness :
    (shutdownBackgroundWorker ⟨true, []⟩).initialized = false ∧
    (submitFolderForProcessing (fun _ => true) (shutdownBackgroundWorker ⟨true, []⟩)
        (cs "q") false).accepted = true ∧
    (submitFolderForProcessing (fun _ => true) (shutdownBackgroundWorker ⟨true, []⟩)
        (cs "q") false).state.initialized = true :=
  submit_after_shutdown_behaves_as_reinitialized (fun _ => true) ⟨true, []⟩ (cs "q") false
    (by decide) (Or.inr rfl)

/-! ## Substring search and splitting (towards claim C6) -/

theorem startsWith_iff (pat s : List Char) :
    startsWith pat s = true ↔ ∃ t, pat ++ t = s := by
  induction pat generalizing s with
  | nil => simp [startsWith]
  | cons p ps ih =>
    cases s with
    | nil => simp [startsWith]
    | cons c rest =>
      simp only [startsWith, Bool.and_eq_true, decide_eq_true_eq, ih]
      constructor
      · rintro ⟨rfl, t, rfl⟩
        exact ⟨t, rfl⟩
      · rintro ⟨t, h⟩
        simp only [List.cons_append, List.cons.injEq] at h
        exact ⟨h.1, t, h.2⟩

theorem takeBeforeFirst_prefix_of (pat s : List Char) :
    ∃ t, takeBeforeFirst pat s ++ t = s := by
  induction s with
  | nil => exact ⟨[], rfl⟩
  | cons c rest ih =>
    by_cases h : startsWith pat (c :: rest) = true
    · exact ⟨c :: rest, by simp [takeBeforeFirst, h]⟩
    · obtain ⟨t, ht⟩ := ih
      exact ⟨t, by simp [takeBeforeFirst, h, ht]⟩

theorem takeBeforeFirst_marker_follows (pat s : List Char)
    (h : containsSub pat s = true) :
    ∃ t, takeBeforeFirst pat s ++ pat ++ t = s := by
  induction s with
  | nil =>
    simp only [containsSub, List.isEmpty_iff] at h
    exact ⟨[], by simp [takeBeforeFirst, h]⟩
  | cons c rest ih =>
    by_cases hp : startsWith pat (c :: rest) = true
    · obtain ⟨t, ht⟩ := (startsWith_iff pat (c :: rest)).mp hp
      exact ⟨t, by simp [takeBeforeFirst, hp, ht]⟩
    · simp only [containsSub, Bool.or_eq_true] at h
      rcases h with h | h
      · exact absurd h hp
      · obtain ⟨t, ht⟩ := ih h
        exact ⟨t, by simp [takeBeforeFirst, hp]; simpa using ht⟩

theorem not_containsSub_takeBeforeFirst (pat s : List Char) (hpat : pat ≠ []) :
    containsSub pat (takeBeforeFirst pat s) = false := by
  induction s with
  | nil =>
    simp [takeBeforeFirst, containsSub, List.isEmpty_iff, hpat]
  | cons c rest ih =>
    by_cases hp : startsWith pat (c :: rest) = true
    · simp [takeBeforeFirst, hp, containsSub, List.isEmpty_iff, hpat]
    · simp only [takeBeforeFirst, hp, if_false, containsSub, Bool.or_eq_false_iff]
      refine ⟨?_, ih⟩
      by_contra hcon
      simp only [Bool.not_eq_false] at hcon
      obtain ⟨t, ht⟩ := (startsWith_iff _ _).mp hcon
      obtain ⟨u, hu⟩ := takeBeforeFirst_prefix_of pat rest
      apply hp
      apply (startsWith_iff _ _).mpr
      have hstep : pat ++ (t ++ u) = c :: rest := by
        have h2 : (pat ++ t) ++ u = (c :: takeBeforeFirst pat rest) ++ u := by rw [ht]
        simp only [List.cons_append, hu] at h2
        simpa [List.append_assoc] using h2
      exact ⟨t ++ u, hstep⟩

/-- Claim C6 counterexample: on a blob whose very first line begins with
`Negative prompt:` the source truncates nothing — the marker search requires
a preceding newline — whereas the claim requires truncation at that line
(which would leave the empty text). -/
theorem neg_marker_on_first_line_not_truncated :
    startsWith (cs "Negative prompt:") (cs "Negative prompt: bad hands") = true ∧
    extractPositivePrompt (cs "Negative prompt: bad hands") = cs "Negative prompt: bad hands" ∧
    cs "Negative prompt: bad hands" ≠ ([] : List Char) := by
  refine ⟨by decide, by decide, by decide⟩

/-- Claim C6 (amended): positive-prompt extraction truncates at the first
occurrence of the marker `"\nNegative prompt:"` — that is, at the first line
other than the initial one beginning with `Negative prompt:`; a marker at the
very start of the blob is not recognized.  When that marker is absent it
truncates at the first occurrence of `"\nSteps:"` under the same rule; when
neither occurs the blob is returned unchanged.  The negative-prompt marker
takes precedence over the steps marker whenever both occur.  The truncated
result is the prefix of the blob up to (and not containing) the first
marker occurrence. -/
theorem extract_positive_prompt_truncation (s : List Char) :
    (containsSub negMarker s = true →
      extractPositivePrompt s = takeBeforeFirst negMarker s ∧
      (∃ t, extractPositivePrompt s ++ negMarker ++ t = s) ∧
      containsSub negMarker (extractPositivePrompt s) = false) ∧
    (containsSub negMarker s = false → containsSub stepsMarker s = true →
      extractPositivePrompt s = takeBeforeFirst stepsMarker s ∧
      (∃ t, extractPositivePrompt s ++ stepsMarker ++ t = s) ∧
      containsSub stepsMarker (extractPositivePrompt s) = false) ∧
    (containsSub negMarker s = false → containsSub stepsMarker s = false →
      extractPositivePrompt s = s) := by
  refine ⟨?_, ?_, ?_⟩
  · intro hneg
    have he : extractPositivePrompt s = takeBeforeFirst negMarker s := by
      simp [extractPositivePrompt, hneg]
    refine ⟨he, ?_, ?_⟩
    · rw [he]
      exact takeBeforeFirst_marker_follows negMarker s hneg
    · rw [he]
      exact not_containsSub_takeBeforeFirst negMarker s (by decide)
  · intro hneg hsteps
    have he : extractPositivePrompt s = takeBeforeFirst stepsMarker s := by
      simp [extractPositivePrompt, hneg, hsteps]
    refine ⟨he, ?_, ?_⟩
    · rw [he]
      exact takeBeforeFirst_marker_follows stepsMarker s hsteps
    · rw [he]
      exact not_containsSub_takeBeforeFirst stepsMarker s (by decide)
  · intro hneg hsteps
    simp [extractPositivePrompt, hneg, hsteps]

/-- Witness for claim C6's amended theorem at the spec's own example blob:
the extraction truncates exactly before the newline of the
`Negative prompt:` line. -/
theorem extract_positive_prompt_truncation_witness :
    extractPositivePrompt (cs "masterpiece, 1girl\nNegative prompt: bad hands\nSteps: 20") =
      takeBeforeFirst negMarker (cs "masterpiece, 1girl\nNegative prompt: bad hands\nSteps: 20") ∧
    extractPositivePrompt (cs "masterpiece, 1girl\nNegative prompt: bad hands\nSteps: 20") =
      cs "masterpiece, 1girl" := by
  have h := extract_positive_prompt_truncation
    (cs "masterpiece, 1girl\nNegative prompt: bad hands\nSteps: 20")
  exact ⟨(h.1 (by decide)).1, by decide⟩

/-! ## Tokenizer properties (claim C7) -/

theorem dropWhile_append_single (p : Char → Bool) (m : List Char) (c : Char)
    (hc : p c = false) :
    (m ++ [c]).dropWhile p = m.dropWhile p ++ [c] := by
  induction m with
  | nil => simp [List.dropWhile_cons, hc]
  | cons a m ih =>
    by_cases ha : p a = true
    · simp [List.dropWhile_cons, ha, ih]
    · simp [List.dropWhile_cons, ha]

theorem dropTrailingHyphens_cons_of_ne (c : Char) (l : List Char) (hc : ¬ c = '-') :
    dropTrailingHyphens (c :: l) = c :: dropTrailingHyphens l := by
  unfold dropTrailingHyphens
  rw [show (c :: l).reverse = l.reverse ++ [c] by simp]
  rw [dropWhile_append_single _ _ _ (by simp [hc])]
  simp

theorem mem_dropTrailingHyphens (l : List Char) (d : Char)
    (hd : d ∈ dropTrailingHyphens l) : d ∈ l := by
  unfold dropTrailingHyphens at hd
  rw [List.mem_reverse] at hd
  have hmem := (List.dropWhile_sublist (l := l.reverse) (fun c => c = '-')).subset hd
  exact List.mem_reverse.mp hmem

theorem isTokChar_of_isLowerAlnum (c : Char) (h : isLowerAlnum c = true) :
    isTokChar c = true := by
  simp [isTokChar, isWordChar, h]

theorem dropTrailingHyphens_tokenShape (b : List Char)
    (h : ∃ c r2, b = c :: r2 ∧ isLowerAlnum c = true ∧ ∀ d ∈ b, isTokChar d = true) :
    ∃ c r2, dropTrailingHyphens b = c :: r2 ∧ isLowerAlnum c = true ∧
      ∀ d ∈ dropTrailingHyphens b, isTokChar d = true := by
  obtain ⟨c, r2, rfl, hc, hall⟩ := h
  have hcne : ¬ c = '-' := fun hEq => absurd hc (by rw [hEq]; decide)
  rw [dropTrailingHyphens_cons_of_ne c r2 hcne]
  refine ⟨c, dropTrailingHyphens r2, rfl, hc, ?_⟩
  intro d hd
  rcases List.mem_cons.mp hd with rfl | hd2
  · exact hall d (List.mem_cons_self _ _)
  · exact hall d (List.mem_cons_of_mem _ (mem_dropTrailingHyphens r2 d hd2))

theorem scanAux_tokenShape (s : List Char) : ∀ (prevW : Bool) (buf : Option (List Char)),
    (∀ b, buf = some b →
      ∃ c r2, b = c :: r2 ∧ isLowerAlnum c = true ∧ ∀ d ∈ b, isTokChar d = true) →
    ∀ w ∈ scanAux prevW buf s,
      ∃ c r2, w = c :: r2 ∧ isLowerAlnum c = true ∧ ∀ d ∈ w, isTokChar d = true := by
  induction s with
  | nil =>
    intro prevW buf hbuf w hw
    cases buf with
    | none => simp [scanAux] at hw
    | some b =>
      simp only [scanAux, List.mem_singleton] at hw
      subst hw
      exact dropTrailingHyphens_tokenShape b (hbuf b rfl)
  | cons a rest ih =>
    intro prevW buf hbuf w hw
    cases buf with
    | some b =>
      by_cases ha : isTokChar a = true
      · simp only [scanAux, ha, if_true] at hw
        refine ih prevW (some (b ++ [a])) ?_ w hw
        intro b2 hb2
        cases hb2
        obtain ⟨c, r2, rfl, hc, hall⟩ := hbuf b rfl
        refine ⟨c, r2 ++ [a], by simp, hc, ?_⟩
        intro d hd
        rcases List.mem_append.mp hd with hd1 | hd1
        · exact hall d hd1
        · rw [List.mem_singleton.mp hd1]
          exact ha
      · simp only [scanAux, ha, if_false, Bool.false_eq_true] at hw
        rcases List.mem_cons.mp hw with rfl | hw2
        · exact dropTrailingHyphens_tokenShape b (hbuf b rfl)
        · exact ih (isWordChar a) none (by intro b2 hb2; cases hb2) w hw2
    | none =>
      by_cases hstart : ¬ prevW = true ∧ isLowerAlnum a = true
      · simp only [scanAux] at hw
        rw [if_pos hstart] at hw
        refine ih prevW (some [a]) ?_ w hw
        intro b2 hb2
        cases hb2
        refine ⟨a, [], rfl, hstart.2, ?_⟩
        intro d hd
        rw [List.mem_singleton.mp hd]
        exact isTokChar_of_isLowerAlnum a hstart.2
      · simp only [scanAux] at hw
        rw [if_neg hstart] at hw
        exact ih (isWordChar a) none (by intro b2 hb2; cases hb2) w hw

/-- Claim C7: word extraction lower-cases the text and tokenizes it into runs
beginning with an alphanumeric character followed by word characters or
hyphens; tokens shorter than `min_length` or contained in the stopword set
are dropped; the occurrence order of the surviving tokens is preserved (the
result is a sub-sequence of the token stream of the lower-cased text); empty
input yields the empty sequence; and on the spec's example,
`extract_words_from_text "A cat, and a Dog!" with stopwords a, and and
min_length 2` yields exactly `cat, dog`. -/
theorem extract_words_from_text_spec :
    (∀ (text : List Char) (stopwords : List (List Char)) (minLength : Nat) w,
      w ∈ extractWordsFromText text stopwords minLength →
      minLength ≤ w.length ∧ w ∉ stopwords ∧
      (∃ c r2, w = c :: r2 ∧ isLowerAlnum c = true) ∧ (∀ d ∈ w, isTokChar d = true)) ∧
    (∀ stopwords minLength, extractWordsFromText [] stopwords minLength = []) ∧
    (∀ (text : List Char) (stopwords : List (List Char)) (minLength : Nat),
      (extractWordsFromText text stopwords minLength).Sublist
        (scanTokens (text.map lowerAscii))) ∧
    extractWordsFromText (cs "A cat, and a Dog!") [cs "a", cs "and"] 2 =
      [cs "cat", cs "dog"] := by
  refine ⟨?_, ?_, ?_, by decide⟩
  · intro text stopwords minLength w hw
    by_cases htext : text = []
    · simp [extractWordsFromText, htext] at hw
    · simp only [extractWordsFromText, htext, if_false] at hw
      obtain ⟨hmem, hcond⟩ := List.mem_filter.mp hw
      simp only [Bool.and_eq_true, decide_eq_true_eq, Bool.not_eq_true',
        decide_eq_false_iff_not] at hcond
      obtain ⟨c, r2, hshape, hc, hall⟩ :=
        scanAux_tokenShape (text.map lowerAscii) false none (by intro b hb; cases hb) w hmem
      exact ⟨hcond.1, hcond.2, ⟨c, r2, hshape, hc⟩, hall⟩
  · intro stopwords minLength
    simp [extractWordsFromText]
  · intro text stopwords minLength
    by_cases htext : text = []
    · simp [extractWordsFromText, htext, List.nil_sublist]
    · simp only [extractWordsFromText, htext, if_false]
      exact List.filter_sublist _

/-- Witness for claim C7's theorem: at the spec's example input the token
`"cat"` is in the result and satisfies every stated property. -/
theorem extract_words_from_text_spec_witness :
    2 ≤ (cs "cat").length ∧ cs "cat" ∉ [cs "a", cs "and"] ∧
    (∃ c r2, cs "cat" = c :: r2 ∧ isLowerAlnum c = true) ∧
    (∀ d ∈ cs "cat", isTokChar d = true) :=
  extract_words_from_text_spec.1 (cs "A cat, and a Dog!") [cs "a", cs "and"] 2
    (cs "cat") (by decide)

/-! ## Stopword persistence (claim C8) -/

/-- Claim C8 counterexample: saving the empty stopword list and reading it
back yields the built-in default list, not the (empty) set of lower-cased
saved words — the reader's truthiness test `if setting and isinstance(...)`
rejects an empty list. -/
theorem save_empty_stopwords_reads_default :
    getStopwords (saveStopwords [] []) = DEFAULT_STOPWORDS ∧
    cs "the" ∈ getStopwords (saveStopwords [] []) ∧
    (([] : List (List Char)).map (fun w => w.map lowerAscii)) = [] := by
  refine ⟨rfl, by decide, rfl⟩

/-- Claim C8 (amended): for every non-empty list of words, saving it and
reading back yields exactly the lower-cased saved words (as a set, read up to
membership); saving the empty list is indistinguishable from never saving —
the reader's truthiness test rejects it — and when no stopword setting was
ever saved, `get_stopwords` returns the built-in default list. -/
theorem stopwords_roundtrip (store store2 : KVStore) (ws : List (List Char))
    (hne : ws ≠ []) (hnone : getSetting store2 STOPWORDS_SETTING_KEY = none) :
    getStopwords (saveStopwords store ws) = ws.map (fun w => w.map lowerAscii) ∧
    getStopwords (saveStopwords store []) = DEFAULT_STOPWORDS ∧
    getStopwords store2 = DEFAULT_STOPWORDS := by
  refine ⟨?_, ?_, ?_⟩
  · simp [getStopwords, saveStopwords, saveSetting, getSetting, List.find?, hne]
  · simp [getStopwords, saveStopwords, saveSetting, getSetting, List.find?]
  · simp [getStopwords, hnone]

/-- Witness for claim C8's amended theorem at a concrete store and list. -/
theorem stopwords_roundtrip_witness :
    getStopwords (saveStopwords [] [cs "Foo", cs "BAR"]) = [cs "foo", cs "bar"] ∧
    getStopwords (saveStopwords [] []) = DEFAULT_STOPWORDS ∧
    getStopwords [] = DEFAULT_STOPWORDS := by
  have h := stopwords_roundtrip [] [] [cs "Foo", cs "BAR"] (by decide) rfl
  refine ⟨?_, h.2.1, h.2.2⟩
  rw [h.1]
  decide

/-! ## Rounding and percentage bounds (claim C2) -/

theorem roundHalfEven_le (q : ℚ) : (roundHalfEven q : ℚ) ≤ q + 1/2 := by
  unfold roundHalfEven
  have hfl : (⌊q⌋ : ℚ) ≤ q := Int.floor_le q
  by_cases h1 : q - ⌊q⌋ < 1/2
  · rw [if_pos h1]; linarith
  · rw [if_neg h1]
    by_cases h2 : 1/2 < q - ⌊q⌋
    · rw [if_pos h2]; push_cast; linarith
    · rw [if_neg h2]
      by_cases h3 : ⌊q⌋ % 2 = 0
      · rw [if_pos h3]; linarith
      · rw [if_neg h3]; push_cast; linarith

theorem pct_le (c T : Nat) (hT : 0 < T) :
    pct c T ≤ (c : ℚ) / (T : ℚ) * 100 + 1/200 := by
  unfold pct roundToHundredths
  rw [if_pos hT]
  have h := roundHalfEven_le ((c : ℚ) / (T : ℚ) * 100 * 100)
  have hstep : (roundHalfEven ((c : ℚ) / (T : ℚ) * 100 * 100) : ℚ) / 100 ≤
      ((c : ℚ) / (T : ℚ) * 100 * 100 + 1/2) / 100 := by gcongr
  calc (roundHalfEven ((c : ℚ) / (T : ℚ) * 100 * 100) : ℚ) / 100
      ≤ ((c : ℚ) / (T : ℚ) * 100 * 100 + 1/2) / 100 := hstep
    _ = (c : ℚ) / (T : ℚ) * 100 + 1/200 := by ring

theorem pct_zero_total (c : Nat) : pct c 0 = 0 := by
  simp [pct]

theorem sum_pct_le (counts : List Nat) (T : Nat) (h : counts.sum ≤ T) :
    ((counts.map (fun c => pct c T)).sum : ℚ) ≤ 100 + (counts.length : ℚ) / 200 := by
  by_cases hT : 0 < T
  · have key : ∀ (l : List Nat), ((l.map (fun c => pct c T)).sum : ℚ) ≤
        ((l.sum : ℚ) / (T : ℚ)) * 100 + (l.length : ℚ) / 200 := by
      intro l
      induction l with
      | nil => simp
      | cons a l ih =>
        simp only [List.map_cons, List.sum_cons, List.length_cons]
        have hle := pct_le a T hT
        have hcast1 : ((a + l.sum : Nat) : ℚ) = (a : ℚ) + ((l.sum : Nat) : ℚ) := by
          push_cast
          ring
        have hcast2 : ((l.length + 1 : Nat) : ℚ) = ((l.length : Nat) : ℚ) + 1 := by
          push_cast
          ring
        rw [hcast1, hcast2]
        have hexpand : ((a : ℚ) + ((l.sum : Nat) : ℚ)) / (T : ℚ) * 100 =
            (a : ℚ) / (T : ℚ) * 100 + ((l.sum : Nat) : ℚ) / (T : ℚ) * 100 := by
          ring
        rw [hexpand]
        linarith
    have hT' : (0 : ℚ) < (T : ℚ) := by exact_mod_cast hT
    have hsum : ((counts.sum : Nat) : ℚ) ≤ (T : ℚ) := by exact_mod_cast h
    have hdiv : ((counts.sum : Nat) : ℚ) / (T : ℚ) ≤ 1 := by
      rw [div_le_one hT']
      exact hsum
    have := key counts
    linarith
  · have hT0 : T = 0 := by omega
    subst hT0
    have hzero : counts.map (fun c => pct c 0) = counts.map (fun _ => (0 : ℚ)) := by
      simp [pct_zero_total]
    rw [hzero]
    simp
    positivity

/-- Claim C2 counterexample: a folder with one image carrying six distinct
custom tags.  The produced tag histogram (a permitted result of
`get_top_tags` with the default top-10 limit) has six entries of count 1,
each with percentage `round(1/6*100, 2) = 16.67`, and the percentages sum to
`100.02 > 100`, refuting the claimed bound of at most 100. -/
theorem tag_histogram_percentages_exceed_100 :
    getTopTagsResult
      ⟨[⟨1, cs "f/a.png", 0, none⟩],
       [⟨1, 1⟩, ⟨1, 2⟩, ⟨1, 3⟩, ⟨1, 4⟩, ⟨1, 5⟩, ⟨1, 6⟩],
       [⟨1, "t1", "custom"⟩, ⟨2, "t2", "custom"⟩, ⟨3, "t3", "custom"⟩,
        ⟨4, "t4", "custom"⟩, ⟨5, "t5", "custom"⟩, ⟨6, "t6", "custom"⟩]⟩
      none none (cs "f") true 10 none
      (topTagsOfRows (tagGroups
        ⟨[⟨1, cs "f/a.png", 0, none⟩],
         [⟨1, 1⟩, ⟨1, 2⟩, ⟨1, 3⟩, ⟨1, 4⟩, ⟨1, 5⟩, ⟨1, 6⟩],
         [⟨1, "t1", "custom"⟩, ⟨2, "t2", "custom"⟩, ⟨3, "t3", "custom"⟩,
          ⟨4, "t4", "custom"⟩, ⟨5, "t5", "custom"⟩, ⟨6, "t6", "custom"⟩]⟩ [1])) ∧
    100 < (((topTagsOfRows (tagGroups
      ⟨[⟨1, cs "f/a.png", 0, none⟩],
       [⟨1, 1⟩, ⟨1, 2⟩, ⟨1, 3⟩, ⟨1, 4⟩, ⟨1, 5⟩, ⟨1, 6⟩],
       [⟨1, "t1", "custom"⟩, ⟨2, "t2", "custom"⟩, ⟨3, "t3", "custom"⟩,
        ⟨4, "t4", "custom"⟩, ⟨5, "t5", "custom"⟩, ⟨6, "t6", "custom"⟩]⟩ [1])).map
      (fun e => e.percentage)).sum : ℚ) := by
  constructor
  · simp only [getTopTagsResult]
    rw [if_neg (by decide)]
    refine ⟨_, ⟨_, List.Perm.refl _, by decide, by decide⟩, rfl⟩
  · have hpct : pct 1 6 = 1667/100 := by
      have harg : ((1 : Nat) : ℚ) / ((6 : Nat) : ℚ) * 100 * 100 = 5000/3 := by
        norm_num
      have hfloor : ⌊(5000/3 : ℚ)⌋ = 1666 := by
        rw [Int.floor_eq_iff]
        constructor <;> norm_num
      unfold pct roundToHundredths roundHalfEven
      rw [if_pos (by norm_num)]
      rw [harg, hfloor]
      rw [if_neg (by push_cast; norm_num), if_pos (by push_cast; norm_num)]
      norm_num
    have hgroups : tagGroups
        ⟨[⟨1, cs "f/a.png", 0, none⟩],
         [⟨1, 1⟩, ⟨1, 2⟩, ⟨1, 3⟩, ⟨1, 4⟩, ⟨1, 5⟩, ⟨1, 6⟩],
         [⟨1, "t1", "custom"⟩, ⟨2, "t2", "custom"⟩, ⟨3, "t3", "custom"⟩,
          ⟨4, "t4", "custom"⟩, ⟨5, "t5", "custom"⟩, ⟨6, "t6", "custom"⟩]⟩ [1] =
        [⟨1, "t1", "custom", 1⟩, ⟨2, "t2", "custom", 1⟩, ⟨3, "t3", "custom", 1⟩,
         ⟨4, "t4", "custom", 1⟩, ⟨5, "t5", "custom", 1⟩, ⟨6, "t6", "custom", 1⟩] := by
      decide
    rw [hgroups]
    simp only [topTagsOfRows, List.map_cons, List.map_nil, List.sum_cons, List.sum_nil]
    norm_num [hpct]

/-- Claim C2 (amended): in every histogram produced — `top_tags` entries of
`get_top_tags` and `prompt_analysis.top_words` entries — each percentage
equals `round(count/total*100, 2)` for that histogram's total (for the tag
histogram the total is the sum of the displayed counts; for the word
histogram the total is the count over all extracted words, of which the
displayed counts sum to at most that total), the percentage is 0 when the
total is zero, and the percentages of k returned entries sum to at most
`100 + k * 0.005` — rounding each value to two decimals can push the sum
slightly above 100. -/
theorem histogram_percentage_properties :
    (∀ (db : DB) (imgFail tagFail : Option String) (folderPath : List Char)
        (recursive : Bool) (k : Nat) (maxImages : Option Nat) (out : List TagEntry),
      getTopTagsResult db imgFail tagFail folderPath recursive k maxImages out →
      (∀ e ∈ out, e.percentage = pct e.count ((out.map (fun x => x.count)).sum)) ∧
      ((out.map (fun e => e.percentage)).sum ≤ 100 + (out.length : ℚ) / 200)) ∧
    (∀ (stopwords : List (List Char)) (qFail : Option String) (db : DB)
        (folderPath : List Char) (recursive : Bool) (k : Nat) (maxImages : Option Nat),
      (∃ T, (∀ e ∈ (analyzePromptWordsBody stopwords qFail db folderPath recursive k
            maxImages).top_words, e.percentage = pct e.count T) ∧
        ((analyzePromptWordsBody stopwords qFail db folderPath recursive k
            maxImages).top_words.map (fun e => e.count)).sum ≤ T) ∧
      (((analyzePromptWordsBody stopwords qFail db folderPath recursive k
          maxImages).top_words.map (fun e => e.percentage)).sum ≤
        100 + ((analyzePromptWordsBody stopwords qFail db folderPath recursive k
          maxImages).top_words.length : ℚ) / 200)) ∧
    (∀ c : Nat, pct c 0 = 0) := by
  have htags : ∀ gs : List TagCount,
      (∀ e ∈ topTagsOfRows gs,
        e.percentage = pct e.count (((topTagsOfRows gs).map (fun x => x.count)).sum)) ∧
      (((topTagsOfRows gs).map (fun e => e.percentage)).sum ≤
        100 + ((topTagsOfRows gs).length : ℚ) / 200) := by
    intro gs
    have hcounts : (topTagsOfRows gs).map (fun x => x.count) = gs.map (fun r => r.count) := by
      simp [topTagsOfRows, List.map_map]
    constructor
    · intro e he
      simp only [topTagsOfRows, List.mem_map] at he
      obtain ⟨r, _, rfl⟩ := he
      rw [hcounts]
    · have hperc : (topTagsOfRows gs).map (fun e => e.percentage) =
          (gs.map (fun r => r.count)).map
            (fun c => pct c ((gs.map (fun r => r.count)).sum)) := by
        simp [topTagsOfRows, List.map_map]
      have hlen : (topTagsOfRows gs).length = ((gs.map (fun r => r.count))).length := by
        simp [topTagsOfRows]
      rw [hperc, hlen]
      exact sum_pct_le _ _ (le_refl _)
  refine ⟨?_, ?_, fun c => pct_zero_total c⟩
  · intro db imgFail tagFail folderPath recursive k maxImages out hrel
    cases imgFail with
    | some e =>
      simp only [getTopTagsResult] at hrel
      subst hrel
      refine ⟨by simp, by simp⟩
    | none =>
      simp only [getTopTagsResult] at hrel
      split at hrel
      · subst hrel
        refine ⟨by simp, by simp⟩
      · cases tagFail with
        | some e =>
          subst hrel
          refine ⟨by simp, by simp⟩
        | none =>
          obtain ⟨gs, _, rfl⟩ := hrel
          exact htags gs
  · intro stopwords qFail db folderPath recursive k maxImages
    cases qFail with
    | some e =>
      refine ⟨⟨0, by simp [analyzePromptWordsBody], by simp [analyzePromptWordsBody]⟩, ?_⟩
      simp [analyzePromptWordsBody]
    | none =>
      by_cases hrows : folderExifRows db folderPath recursive maxImages = []
      · refine ⟨⟨0, by simp [analyzePromptWordsBody, hrows], by simp [analyzePromptWordsBody, hrows]⟩, ?_⟩
        simp [analyzePromptWordsBody, hrows]
      · have hbody : analyzePromptWordsBody stopwords none db folderPath recursive k maxImages =
            ⟨(folderExifRows db folderPath recursive maxImages).length,
             some (counterItems (allPromptWords stopwords
               (folderExifRows db folderPath recursive maxImages))).length,
             (mostCommon k (allPromptWords stopwords
               (folderExifRows db folderPath recursive maxImages))).map
               (fun p => ⟨p.1, p.2, pct p.2 ((counterItems (allPromptWords stopwords
                 (folderExifRows db folderPath recursive maxImages))).map
                   (fun p => p.2)).sum⟩),
             none⟩ := by
          simp only [analyzePromptWordsBody, hrows, if_false]
        rw [hbody]
        set ws := allPromptWords stopwords (folderExifRows db folderPath recursive maxImages)
          with hws
        set T := ((counterItems ws).map (fun p => p.2)).sum with hT
        have hsumle : ((mostCommon k ws).map (fun p => p.2)).sum ≤ T := by
          have hsub : ((mostCommon k ws).map (fun p => p.2)).Sublist
              ((List.insertionSort (fun a b => b.2 ≤ a.2) (counterItems ws)).map
                (fun p => p.2)) :=
            (List.take_sublist _ _).map _
          have hperm : ((List.insertionSort (fun a b => b.2 ≤ a.2) (counterItems ws)).map
              (fun p => p.2)).sum = ((counterItems ws).map (fun p => p.2)).sum :=
            ((List.perm_insertionSort _ _).map _).sum_eq
          calc ((mostCommon k ws).map (fun p => p.2)).sum
              ≤ ((List.insertionSort (fun a b => b.2 ≤ a.2) (counterItems ws)).map
                  (fun p => p.2)).sum :=
                hsub.sum_le_sum (fun a _ => Nat.zero_le a)
            _ = T := hperm
        constructor
        · refine ⟨T, ?_, ?_⟩
          · intro e he
            simp only [List.mem_map] at he
            obtain ⟨p, _, rfl⟩ := he
            rfl
          · have hmap : (((mostCommon k ws).map
                (fun p => (⟨p.1, p.2, pct p.2 T⟩ : WordEntry))).map (fun e => e.count)) =
                (mostCommon k ws).map (fun p => p.2) := by
              simp [List.map_map]
            rw [hmap]
            exact hsumle
        · have hmap2 : (((mostCommon k ws).map
              (fun p => (⟨p.1, p.2, pct p.2 T⟩ : WordEntry))).map (fun e => e.percentage)) =
              ((mostCommon k ws).map (fun p => p.2)).map (fun c => pct c T) := by
            simp [List.map_map]
          have hlen2 : (((mostCommon k ws).map
              (fun p => (⟨p.1, p.2, pct p.2 T⟩ : WordEntry))).length) =
              ((mostCommon k ws).map (fun p => p.2)).length := by
            simp
          rw [hmap2, hlen2]
          exact sum_pct_le _ _ hsumle

/-- Witness for claim C2's amended theorem: at a concrete database whose
image query fails, the produced tag histogram is empty and its percentage
sum satisfies the bound. -/
theorem histogram_percentage_properties_witness :
    (∀ e ∈ ([] : List TagEntry), e.percentage = pct e.count (([] : List TagEntry).map
      (fun x => x.count)).sum) ∧
    ((([] : List TagEntry).map (fun e => e.percentage)).sum ≤
      100 + (([] : List TagEntry).length : ℚ) / 200) :=
  histogram_percentage_properties.1 ⟨[], [], []⟩ (some "db error") none (cs "f") true 10 none
    [] rfl

/-! ## Tag-count sums (claim C3) -/

theorem countP_or_disjoint {α : Type} (l : List α) (p q : α → Bool)
    (h : ∀ a ∈ l, ¬ (p a = true ∧ q a = true)) :
    l.countP (fun a => p a || q a) = l.countP p + l.countP q := by
  induction l with
  | nil => simp
  | cons a l ih =>
    have hrest : ∀ b ∈ l, ¬ (p b = true ∧ q b = true) :=
      fun b hb => h b (List.mem_cons_of_mem _ hb)
    have ha := h a (List.mem_cons_self _ _)
    simp only [List.countP_cons, ih hrest]
    by_cases hpa : p a = true
    · by_cases hqa : q a = true
      · exact absurd ⟨hpa, hqa⟩ ha
      · simp [hpa, hqa]
        omega
    · by_cases hqa : q a = true
      · simp [hpa, hqa]
        omega
      · simp [hpa, hqa]

theorem topTagsOfRows_map_count (rows : List TagCount) :
    (topTagsOfRows rows).map (fun e => e.count) = rows.map (fun r => r.count) := by
  simp [topTagsOfRows, List.map_map]

theorem tagGroups_map_count (db : DB) (imageIds : List Int) :
    (tagGroups db imageIds).map (fun g => g.count) =
      db.tags.filterMap (fun t =>
        if t.ttype = "custom" then
          (if db.imageTags.countP
              (fun l => decide (l.imageId ∈ imageIds) && decide (l.tagId = t.id)) ≠ 0
           then some (db.imageTags.countP
              (fun l => decide (l.imageId ∈ imageIds) && decide (l.tagId = t.id)))
           else none)
        else none) := by
  unfold tagGroups
  rw [List.map_filterMap]
  congr 1
  funext t
  by_cases h1 : t.ttype = "custom"
  · simp only [h1, if_true]
    by_cases h2 : db.imageTags.countP
        (fun l => decide (l.imageId ∈ imageIds) && decide (l.tagId = t.id)) ≠ 0
    · simp [h2]
    · simp [h2]
  · simp [h1]

theorem sum_group_counts (links : List ImageTagRow) (imageIds : List Int) :
    ∀ tags : List TagRow, (tags.map (fun t => t.id)).Nodup →
    (tags.filterMap (fun t =>
        if t.ttype = "custom" then
          (if links.countP
              (fun l => decide (l.imageId ∈ imageIds) && decide (l.tagId = t.id)) ≠ 0
           then some (links.countP
              (fun l => decide (l.imageId ∈ imageIds) && decide (l.tagId = t.id)))
           else none)
        else none)).sum =
    links.countP (fun l => decide (l.imageId ∈ imageIds) &&
      tags.any (fun t => t.id = l.tagId && t.ttype = "custom")) := by
  intro tags
  induction tags with
  | nil =>
    intro _
    simp
  | cons t ts ih =>
    intro hnd
    rw [List.map_cons, List.nodup_cons] at hnd
    obtain ⟨hnotin, hnd2⟩ := hnd
    have hsplit : links.countP (fun l => decide (l.imageId ∈ imageIds) &&
        (t :: ts).any (fun u => u.id = l.tagId && u.ttype = "custom")) =
        links.countP (fun l => decide (l.imageId ∈ imageIds) &&
          (decide (t.id = l.tagId) && decide (t.ttype = "custom"))) +
        links.countP (fun l => decide (l.imageId ∈ imageIds) &&
          ts.any (fun u => u.id = l.tagId && u.ttype = "custom")) := by
      rw [List.countP_congr (q := fun l =>
        (decide (l.imageId ∈ imageIds) && (decide (t.id = l.tagId) && decide (t.ttype = "custom"))) ||
        (decide (l.imageId ∈ imageIds) && ts.any (fun u => u.id = l.tagId && u.ttype = "custom")))]
      · exact countP_or_disjoint links _ _ (by
          intro l _ hcon
          obtain ⟨h1, h2⟩ := hcon
          simp only [Bool.and_eq_true, decide_eq_true_eq, List.any_eq_true] at h1 h2
          obtain ⟨u, hu, hid, _⟩ := h2.2
          apply hnotin
          rw [List.mem_map]
          exact ⟨u, hu, hid.trans h1.2.1.symm⟩)
      · intro l _
        rw [List.any_cons, Bool.and_or_distrib_left]
    rw [hsplit, List.filterMap_cons]
    by_cases h1 : t.ttype = "custom"
    · have hflip : links.countP (fun l => decide (l.imageId ∈ imageIds) &&
          (decide (t.id = l.tagId) && decide (t.ttype = "custom"))) =
          links.countP (fun l => decide (l.imageId ∈ imageIds) && decide (l.tagId = t.id)) := by
        apply List.countP_congr
        intro l _
        simp only [Bool.and_eq_true, decide_eq_true_eq]
        constructor
        · rintro ⟨hi, hb, _⟩
          exact ⟨hi, hb.symm⟩
        · rintro ⟨hi, hb⟩
          exact ⟨hi, hb.symm, h1⟩
      rw [hflip]
      by_cases h2 : links.countP
          (fun l => decide (l.imageId ∈ imageIds) && decide (l.tagId = t.id)) ≠ 0
      · rw [if_pos h1, if_pos h2]
        simp only [List.sum_cons, ih hnd2]
      · rw [if_pos h1, if_neg h2]
        simp only [ih hnd2]
        omega
    · have hzero : links.countP (fun l => decide (l.imageId ∈ imageIds) &&
          (decide (t.id = l.tagId) && decide (t.ttype = "custom"))) = 0 := by
        rw [List.countP_eq_zero]
        intro l _
        simp [h1]
      rw [hzero, if_neg h1]
      simp only [ih hnd2]
      omega

/-- Claim C3 (amended): the sum of `count` over the entries returned by
`get_top_tags` equals the number of custom-tag applications observed on the
analyzed media whenever the number of distinct custom tags present does not
exceed the top-K limit (the SQL `LIMIT` truncates the histogram, so with more
distinct tags than the limit the sum only covers the returned tags); when no
custom-tagged media exist the function returns the empty list, and the empty
histogram is produced without any division (`topTagsOfRows [] = []`).  Tag
identifiers are assumed unique (they are the `tag` table's primary key). -/
theorem top_tags_count_sum (db : DB) (folderPath : List Char) (recursive : Bool)
    (k : Nat) (maxImages : Option Nat) (out : List TagEntry)
    (hrel : getTopTagsResult db none none folderPath recursive k maxImages out) :
    ((db.tags.map (fun t => t.id)).Nodup →
      (tagGroups db ((folderImageRows db folderPath recursive maxImages).map
        (fun r => r.id))).length ≤ k →
      (out.map (fun e => e.count)).sum =
        totalTagApplications db ((folderImageRows db folderPath recursive maxImages).map
          (fun r => r.id))) ∧
    (tagGroups db ((folderImageRows db folderPath recursive maxImages).map
        (fun r => r.id)) = [] → out = []) ∧
    topTagsOfRows [] = [] := by
  simp only [getTopTagsResult] at hrel
  refine ⟨?_, ?_, rfl⟩
  · intro hnd hk
    split at hrel
    · next hids =>
      subst hrel
      simp only [List.map_nil, List.sum_nil]
      unfold totalTagApplications
      symm
      rw [List.countP_eq_zero]
      intro l _
      rw [hids]
      simp
    · next hids =>
      obtain ⟨gs, ⟨full, hperm, _, htake⟩, rfl⟩ := hrel
      rw [topTagsOfRows_map_count]
      have hlen : full.length = (tagGroups db ((folderImageRows db folderPath recursive
          maxImages).map (fun r => r.id))).length := hperm.length_eq.symm
      have hfull : gs = full := by
        rw [htake]
        exact List.take_of_length_le (by omega)
      subst hfull
      have hsum : (gs.map (fun r => r.count)).sum =
          ((tagGroups db ((folderImageRows db folderPath recursive maxImages).map
            (fun r => r.id))).map (fun r => r.count)).sum :=
        ((hperm.map (fun r => r.count)).sum_eq).symm
      rw [hsum, tagGroups_map_count]
      exact sum_group_counts db.imageTags _ db.tags hnd
  · intro hg
    split at hrel
    · exact hrel
    · obtain ⟨gs, ⟨full, hperm, _, htake⟩, rfl⟩ := hrel
      rw [hg] at hperm
      have hfull : [] = full := hperm.nil_eq
      rw [htake, ← hfull]
      simp [topTagsOfRows]

/-- Witness for claim C3's amended theorem at the empty catalog: the relation
holds for the empty histogram and the count sum equals the (zero) number of
tag applications. -/
theorem top_tags_count_sum_witness :
    (([] : List TagEntry).map (fun e => e.count)).sum =
      totalTagApplications ⟨[], [], []⟩
        ((folderImageRows ⟨[], [], []⟩ (cs "f") true none).map (fun r => r.id)) := by
  have hrel : getTopTagsResult ⟨[], [], []⟩ none none (cs "f") true 10 none [] := by
    simp only [getTopTagsResult]
    rw [if_pos (by decide)]
    trivial
  exact (top_tags_count_sum ⟨[], [], []⟩ (cs "f") true 10 none [] hrel).1
    (by decide) (by decide)

/-- Claim C3 counterexample: a folder with one image carrying eleven distinct
custom tags.  `get_top_tags` keeps only the top `LIMIT 10` groups, so the
returned counts sum to 10 while eleven custom-tag applications were observed
on the analyzed media — the claimed equality fails. -/
theorem top_tags_count_sum_truncated :
    getTopTagsResult
      ⟨[⟨1, cs "f/a.png", 0, none⟩],
       [⟨1, 1⟩, ⟨1, 2⟩, ⟨1, 3⟩, ⟨1, 4⟩, ⟨1, 5⟩, ⟨1, 6⟩, ⟨1, 7⟩, ⟨1, 8⟩, ⟨1, 9⟩,
        ⟨1, 10⟩, ⟨1, 11⟩],
       [⟨1, "t1", "custom"⟩, ⟨2, "t2", "custom"⟩, ⟨3, "t3", "custom"⟩,
        ⟨4, "t4", "custom"⟩, ⟨5, "t5", "custom"⟩, ⟨6, "t6", "custom"⟩,
        ⟨7, "t7", "custom"⟩, ⟨8, "t8", "custom"⟩, ⟨9, "t9", "custom"⟩,
        ⟨10, "t10", "custom"⟩, ⟨11, "t11", "custom"⟩]⟩
      none none (cs "f") true 10 none
      (topTagsOfRows ((tagGroups
        ⟨[⟨1, cs "f/a.png", 0, none⟩],
         [⟨1, 1⟩, ⟨1, 2⟩, ⟨1, 3⟩, ⟨1, 4⟩, ⟨1, 5⟩, ⟨1, 6⟩, ⟨1, 7⟩, ⟨1, 8⟩, ⟨1, 9⟩,
          ⟨1, 10⟩, ⟨1, 11⟩],
         [⟨1, "t1", "custom"⟩, ⟨2, "t2", "custom"⟩, ⟨3, "t3", "custom"⟩,
          ⟨4, "t4", "custom"⟩, ⟨5, "t5", "custom"⟩, ⟨6, "t6", "custom"⟩,
          ⟨7, "t7", "custom"⟩, ⟨8, "t8", "custom"⟩, ⟨9, "t9", "custom"⟩,
          ⟨10, "t10", "custom"⟩, ⟨11, "t11", "custom"⟩]⟩ [1]).take 10)) ∧
    ((topTagsOfRows ((tagGroups
        ⟨[⟨1, cs "f/a.png", 0, none⟩],
         [⟨1, 1⟩, ⟨1, 2⟩, ⟨1, 3⟩, ⟨1, 4⟩, ⟨1, 5⟩, ⟨1, 6⟩, ⟨1, 7⟩, ⟨1, 8⟩, ⟨1, 9⟩,
          ⟨1, 10⟩, ⟨1, 11⟩],
         [⟨1, "t1", "custom"⟩, ⟨2, "t2", "custom"⟩, ⟨3, "t3", "custom"⟩,
          ⟨4, "t4", "custom"⟩, ⟨5, "t5", "custom"⟩, ⟨6, "t6", "custom"⟩,
          ⟨7, "t7", "custom"⟩, ⟨8, "t8", "custom"⟩, ⟨9, "t9", "custom"⟩,
          ⟨10, "t10", "custom"⟩, ⟨11, "t11", "custom"⟩]⟩ [1]).take 10)).map
      (fun e => e.count)).sum = 10 ∧
    totalTagApplications
      ⟨[⟨1, cs "f/a.png", 0, none⟩],
       [⟨1, 1⟩, ⟨1, 2⟩, ⟨1, 3⟩, ⟨1, 4⟩, ⟨1, 5⟩, ⟨1, 6⟩, ⟨1, 7⟩, ⟨1, 8⟩, ⟨1, 9⟩,
        ⟨1, 10⟩, ⟨1, 11⟩],
       [⟨1, "t1", "custom"⟩, ⟨2, "t2", "custom"⟩, ⟨3, "t3", "custom"⟩,
        ⟨4, "t4", "custom"⟩, ⟨5, "t5", "custom"⟩, ⟨6, "t6", "custom"⟩,
        ⟨7, "t7", "custom"⟩, ⟨8, "t8", "custom"⟩, ⟨9, "t9", "custom"⟩,
        ⟨10, "t10", "custom"⟩, ⟨11, "t11", "custom"⟩]⟩ [1] = 11 ∧
    (10 : Nat) ≠ 11 := by
  refine ⟨?_, ?_, by decide, by decide⟩
  · simp only [getTopTagsResult]
    rw [if_neg (by decide)]
    exact ⟨_, ⟨_, List.Perm.refl _, by decide, by decide⟩, rfl⟩
  · rw [topTagsOfRows_map_count]
    decide

/-! ## Tag-histogram ordering (claim C5) -/

/-- Claim C5 counterexample: with two custom tags of equal count, the query's
`ORDER BY count DESC` (with no secondary sort key) also permits the result in
which the larger tag identifier comes first; that permitted result violates
the claimed identifier-ascending tie order, so the top-K selection is not
deterministic for a fixed catalog state. -/
theorem top_tags_tie_order_not_ascending :
    getTopTagsResult
      ⟨[⟨1, cs "f/a.png", 0, none⟩], [⟨1, 1⟩, ⟨1, 2⟩],
       [⟨1, "t1", "custom"⟩, ⟨2, "t2", "custom"⟩]⟩
      none none (cs "f") true 10 none
      [⟨2, "t2", "custom", 1, pct 1 2⟩, ⟨1, "t1", "custom", 1, pct 1 2⟩] ∧
    ¬ ([(⟨2, "t2", "custom", 1, pct 1 2⟩ : TagEntry),
        ⟨1, "t1", "custom", 1, pct 1 2⟩].Pairwise
        (fun a b => b.count < a.count ∨ (b.count = a.count ∧ a.tagId < b.tagId))) := by
  constructor
  · simp only [getTopTagsResult]
    rw [if_neg (by decide)]
    refine ⟨[⟨2, "t2", "custom", 1⟩, ⟨1, "t1", "custom", 1⟩],
      ⟨[⟨2, "t2", "custom", 1⟩, ⟨1, "t1", "custom", 1⟩], by decide, by decide, by decide⟩,
      rfl⟩
  · intro h
    have hcon := (List.pairwise_cons.mp h).1 _ (List.mem_cons_self _ _)
    simp at hcon

/-- Claim C5 (amended): every result the tag-count query permits is sorted by
count descending and has at most K entries; but the query carries no
secondary sort key, so the order among entries of equal count — and hence the
top-K selection at ties — is unspecified rather than
identifier-ascending. -/
theorem top_tags_sorted_by_count_desc (db : DB) (imgFail tagFail : Option String)
    (folderPath : List Char) (recursive : Bool) (k : Nat) (maxImages : Option Nat)
    (out : List TagEntry)
    (hrel : getTopTagsResult db imgFail tagFail folderPath recursive k maxImages out) :
    out.Pairwise (fun a b => b.count ≤ a.count) ∧ out.length ≤ k := by
  cases imgFail with
  | some e =>
    simp only [getTopTagsResult] at hrel
    subst hrel
    exact ⟨List.Pairwise.nil, Nat.zero_le k⟩
  | none =>
    simp only [getTopTagsResult] at hrel
    split at hrel
    · subst hrel
      exact ⟨List.Pairwise.nil, Nat.zero_le k⟩
    · cases tagFail with
      | some e =>
        subst hrel
        exact ⟨List.Pairwise.nil, Nat.zero_le k⟩
      | none =>
        obtain ⟨gs, ⟨full, _, hsorted, htake⟩, rfl⟩ := hrel
        constructor
        · have hgs : gs.Pairwise (fun a b => b.count ≤ a.count) := by
            rw [htake]
            exact hsorted.sublist (List.take_sublist k full)
          simp only [topTagsOfRows, List.pairwise_map]
          exact hgs
        · have hlen : gs.length ≤ k := by
            rw [htake]
            exact List.length_take_le k full
          simpa [topTagsOfRows] using hlen

/-- Witness for claim C5's amended theorem: at a catalog whose image query
fails, the produced (empty) histogram is count-descending and within the
limit. -/
theorem top_tags_sorted_by_count_desc_witness :
    ([] : List TagEntry).Pairwise (fun a b => b.count ≤ a.count) ∧
    ([] : List TagEntry).length ≤ 10 :=
  top_tags_sorted_by_count_desc ⟨[], [], []⟩ (some "db error") none (cs "f") true 10 none
    [] rfl

/-! ## Zero analysis limit (claim C10) -/

theorem getMediaStats_limit_applied (db : DB) (imgFail taggedFail : Option String)
    (isVideo : List Char → Bool) (folderPath : List Char) (recursive : Bool)
    (limit : Option Nat) :
    (getMediaStats db imgFail taggedFail isVideo folderPath recursive limit).limit_applied =
      limit.isSome := by
  cases imgFail with
  | some e => rfl
  | none =>
    cases taggedFail with
    | some e =>
      simp only [getMediaStats]
      by_cases hlen : (List.map (fun r => r.id)
          (folderImageRows db folderPath recursive limit)).length = 0
      · rw [if_pos hlen]
      · rw [if_neg hlen]
    | none =>
      simp only [getMediaStats]
      by_cases hlen : (List.map (fun r => r.id)
          (folderImageRows db folderPath recursive limit)).length = 0
      · rw [if_pos hlen]
      · rw [if_neg hlen]

/-- Claim C10: an `analysis_limit` (or `max_images`) of `0` is treated like no
limit at all: the truthiness test on the limit makes the query run without
`LIMIT`, so every matching row is analyzed, while `media_stats` still reports
`limit_applied = true` because the limit is not `None`. -/
theorem zero_limit_runs_unlimited :
    (∀ (db : DB) (isVideo : List Char → Bool) (folderPath : List Char) (recursive : Bool),
      getMediaStats db none none isVideo folderPath recursive (some 0) =
        { getMediaStats db none none isVideo folderPath recursive none with
            limit_applied := true } ∧
      (getMediaStats db none none isVideo folderPath recursive none).limit_applied = false ∧
      (getMediaStats db none none isVideo folderPath recursive (some 0)).limit_applied = true) ∧
    (∀ (db : DB) (folderPath : List Char) (recursive : Bool) (k : Nat)
        (out : List TagEntry),
      getTopTagsResult db none none folderPath recursive k (some 0) out ↔
        getTopTagsResult db none none folderPath recursive k none out) := by
  have hquery : ∀ (db : DB) (folderPath : List Char) (recursive : Bool),
      folderImageRows db folderPath recursive (some 0) =
        folderImageRows db folderPath recursive none := by
    intro db folderPath recursive
    simp [folderImageRows, imageQuery]
  constructor
  · intro db isVideo folderPath recursive
    refine ⟨?_, getMediaStats_limit_applied db none none isVideo folderPath recursive none,
      getMediaStats_limit_applied db none none isVideo folderPath recursive (some 0)⟩
    simp only [getMediaStats, hquery]
    split <;> rfl
  · intro db folderPath recursive k out
    simp only [getTopTagsResult, hquery]

/-! ## Error policy of `compute_folder_stats` (claim C4) -/

/-- Claim C4 counterexample: two concrete failures refute the claim.  First,
with a valid folder and a raised tag-count query, the tag histogram sub-step
is caught but replaced by the bare empty list — a list carries no error
string, unlike the claimed empty/zeroed sub-result annotated with an error.
Second, with a valid folder and a raised stopword read (the database read
`get_stopwords(conn)` performed by the prompt-analysis step before its `try`
block), the call's only permitted outcome is a raised exception, so
`compute_folder_stats` does raise after validation passed. -/
theorem compute_folder_stats_raises_and_bare_list :
    getTopTagsResult ⟨[⟨1, cs "f/a.png", 0, none⟩], [], []⟩ none (some "boom")
      (cs "f") true 10 none [] ∧
    computeFolderStatsResult true ⟨0, 0, 0, 0⟩ ⟨[⟨1, cs "f/a.png", 0, none⟩], [], []⟩ []
      (fun _ => false) (fun _ => none) (fun _ => none)
      ⟨none, none, none, some "boom", some "db down", none, none⟩
      (cs "f") true true none (Except.error "db down") := by
  constructor
  · simp only [getTopTagsResult]
    rw [if_neg (by decide)]
    trivial
  · simp only [computeFolderStatsResult]
    rw [if_neg (by decide)]
    trivial

/-- Claim C4 (amended): `compute_folder_stats` raises an invalid-input error
if and only if the folder path does not exist or is not a directory.  Once
validation passes, an exception raised inside a sub-step's guarded (`try`)
section is caught and the overall record is still returned: the media-stats,
prompt-analysis and metadata-summary sub-results are replaced by zeroed/empty
dictionaries carrying an error string, but the tag histogram is replaced by
the bare empty list with no error annotation.  The one unguarded database
interaction after validation is the stopword read performed by the
prompt-analysis step before its `try` block: an exception there propagates
and the call raises. -/
theorem compute_folder_stats_error_policy (validFolder : Bool) (counts : FsCounts)
    (db : DB) (store : KVStore) (isVideo : List Char → Bool)
    (modelOf sizeOf : List Char → Option (List Char)) (fails : DbFailures)
    (folderPath : List Char) (recursive includeMetadata : Bool)
    (analysisLimit : Option Nat) (res : Except String FolderStatsRecord)
    (hrel : computeFolderStatsResult validFolder counts db store isVideo modelOf sizeOf
      fails folderPath recursive includeMetadata analysisLimit res) :
    (validFolder = false →
      res = Except.error ("Invalid folder path: " ++ String.mk folderPath)) ∧
    (validFolder = true → ∀ e, fails.stopwordRead = some e → res = Except.error e) ∧
    (validFolder = true → fails.stopwordRead = none →
      ∃ r, res = Except.ok r ∧
        (∀ e, fails.mediaImgQ = some e →
          r.media_stats = ⟨0, 0, 0, 0, 0, 0, analysisLimit.isSome, some e⟩) ∧
        ((fails.tagsImgQ ≠ none ∨ fails.tagsTagQ ≠ none) → r.top_tags = []) ∧
        (∀ e, fails.promptQ = some e → r.prompt_analysis = ⟨0, none, [], some e⟩) ∧
        (∀ e, includeMetadata = true → fails.metadataQ = some e →
          r.metadata_summary = some ⟨[], [], some e⟩)) := by
  cases validFolder with
  | false =>
    simp only [computeFolderStatsResult, if_pos rfl] at hrel
    refine ⟨fun _ => hrel, fun h => absurd h (by decide), fun h => absurd h (by decide)⟩
  | true =>
    rw [computeFolderStatsResult, if_neg (by decide)] at hrel
    refine ⟨fun h => absurd h (by decide), ?_, ?_⟩
    · intro _ e he
      rw [he] at hrel
      exact hrel
    · intro _ hnone
      rw [hnone] at hrel
      obtain ⟨tt, htt, rfl⟩ := hrel
      refine ⟨_, rfl, ?_, ?_, ?_, ?_⟩
      · intro e he
        simp only [he, getMediaStats]
      · intro hor
        cases hq : fails.tagsImgQ with
        | some e1 =>
          rw [hq] at htt
          simp only [getTopTagsResult] at htt
          exact htt
        | none =>
          rw [hq] at htt
          simp only [getTopTagsResult] at htt
          split at htt
          · exact htt
          · cases hq2 : fails.tagsTagQ with
            | some e2 =>
              rw [hq2] at htt
              exact htt
            | none =>
              rcases hor with h1 | h2
              · exact absurd hq h1
              · exact absurd hq2 h2
      · intro e he
        simp only [he, analyzePromptWordsBody]
      · intro e hinc he
        simp only [hinc, if_true, he, getMetadataSummary]

/-- Witness for claim C4's amended theorem at a concrete invalid folder: the
only permitted outcome of `compute_folder_stats` is the invalid-input
error. -/
theorem compute_folder_stats_error_policy_witness :
    (Except.error ("Invalid folder path: " ++ String.mk (cs "nope")) :
      Except String FolderStatsRecord) =
      Except.error ("Invalid folder path: " ++ String.mk (cs "nope")) :=
  (compute_folder_stats_error_policy false ⟨0, 0, 0, 0⟩ ⟨[], [], []⟩ []
    (fun _ => false) (fun _ => none) (fun _ => none) noFailures (cs "nope") true true none
    (Except.error ("Invalid folder path: " ++ String.mk (cs "nope")))
    (by simp [computeFolderStatsResult])).1 rfl
